import Mathlib

/-!
Verification of the GTUD "digital rotation" v6.2.S pipeline
(`V6-2-S/run_experiment.py`, `V6-2-S/vendor/V6_2_artifact_pack/code/run_v6_2_experiment.py`,
`V6-2-S/tools/check_official_replication.py`).

Shallow embedding conventions:
* Python floats that participate only in field arithmetic are modelled as `ℚ`;
  a possibly-NaN float is modelled as `Option ℚ` (`none` = NaN), with
  NaN-propagating arithmetic mirroring IEEE semantics on the operations used.
* Quantities whose computation genuinely involves `sqrt`, `cos`, `sin` or
  `rpow` (RMS normalisation, the FFT-based low-frequency ratio, the spectral
  amplitudes) are modelled over `ℝ`.
* Fallible code (a Python `raise`) is modelled with `Except String`.
* File writes of the verdict step are modelled by `writeVerdictFiles`, which
  produces the pair of written artifacts only on the success branch, mirroring
  that in the source the two writes are the last statements of
  `compute_verdict` and are unreachable when an exception was raised earlier.
-/

namespace Verdict

/-- One row of `results/fit_summary_by_condition.csv` as consumed by
`compute_verdict` in `run_experiment.py`: only the `condition` column and the
four statistics the verdict reads are consulted (the remaining columns of the
CSV are never accessed by the verdict code). -/
structure SummaryRow where
  condition : String
  R2_mean : ℚ
  R2_std : ℚ
  beta_origin_mean : ℚ
  R2_origin_mean : ℚ
deriving DecidableEq, Repr

/-- The per-condition record of `reference_metrics_v6_2.json`
(fields `R2_mean`, `R2_std`, `beta_origin_mean`, `R2_origin_mean`). -/
structure RefRow where
  R2_mean : ℚ
  R2_std : ℚ
  beta_origin_mean : ℚ
  R2_origin_mean : ℚ
deriving DecidableEq, Repr

/-- `TOL["R2_mean_abs"] = 0.05` in `run_experiment.py`. -/
def TOL_R2_mean_abs : ℚ := 5/100
/-- `TOL["R2_std_abs"] = 0.03`. -/
def TOL_R2_std_abs : ℚ := 3/100
/-- `TOL["beta_origin_mean_rel"] = 0.12`. -/
def TOL_beta_origin_mean_rel : ℚ := 12/100
/-- `TOL["R2_origin_mean_abs"] = 0.20`. -/
def TOL_R2_origin_mean_abs : ℚ := 20/100
/-- `NEG_CONTROL["R2_mean_max"] = 0.20`. -/
def NEG_R2_mean_max : ℚ := 20/100
/-- `NEG_CONTROL["R2_origin_mean_max"] = 0.20`. -/
def NEG_R2_origin_mean_max : ℚ := 20/100

/-- `within(val, ref, abs_tol=t)` from `run_experiment.py`:
`abs(val - ref) <= t`. -/
def within_abs (val ref tol : ℚ) : Bool := |val - ref| ≤ tol

/-- `within(val, ref, rel_tol=t)` from `run_experiment.py`: when the reference
is zero it degenerates to `abs(val) <= t`, otherwise `abs(val-ref)/abs(ref) <= t`. -/
def within_rel (val ref tol : ℚ) : Bool :=
  if ref = 0 then |val| ≤ tol else |val - ref| / |ref| ≤ tol

/-- `row(cond)` inside `compute_verdict`: select the rows whose `condition`
column equals `cond`; exactly one row must match, otherwise a `ValueError`
is raised. -/
def row (df : List SummaryRow) (cond : String) : Except String SummaryRow :=
  match df.filter (fun r => r.condition == cond) with
  | [r] => .ok r
  | _ => .error ("Condition not found or ambiguous: " ++ cond)

/-- `ref["coherent_bin_clean"]`-style dictionary access on the reference
baseline (a Python `KeyError` when the key is absent). -/
def refLookup (ref : List (String × RefRow)) (cond : String) : Except String RefRow :=
  match ref.lookup cond with
  | some r => .ok r
  | none => .error ("KeyError: " ++ cond)

/-- The immutable verdict record assembled by `compute_verdict` (the fields of
the `details` dict that carry run-dependent data; the constant DOI/repo/text
fields are omitted). -/
structure VerdictDetails where
  verdict : String
  checks : List (String × Bool)
  measured_clean : SummaryRow
  measured_random : SummaryRow
  measured_palindrome : SummaryRow
  reference_clean : RefRow
deriving DecidableEq, Repr

/-- `compute_verdict` from `run_experiment.py`: look up the three required
condition rows, the clean reference entry, evaluate the eight named checks,
AND them together, and assemble the details record.  Any failed lookup raises
before any check or write happens. -/
def compute_verdict (df : List SummaryRow) (ref : List (String × RefRow)) :
    Except String VerdictDetails :=
  match row df "coherent_bin_clean" with
  | .error e => .error e
  | .ok clean =>
  match row df "random_bin" with
  | .error e => .error e
  | .ok rand =>
  match row df "palindrome_bin_no_coherence" with
  | .error e => .error e
  | .ok pal =>
  match refLookup ref "coherent_bin_clean" with
  | .error e => .error e
  | .ok ref_clean =>
    let checks : List (String × Bool) :=
      [ ("clean.R2_mean", within_abs clean.R2_mean ref_clean.R2_mean TOL_R2_mean_abs),
        ("clean.R2_std", within_abs clean.R2_std ref_clean.R2_std TOL_R2_std_abs),
        ("clean.beta_origin_mean",
          within_rel clean.beta_origin_mean ref_clean.beta_origin_mean TOL_beta_origin_mean_rel),
        ("clean.R2_origin_mean",
          within_abs clean.R2_origin_mean ref_clean.R2_origin_mean TOL_R2_origin_mean_abs),
        ("random.R2_mean_fail", decide (rand.R2_mean ≤ NEG_R2_mean_max)),
        ("random.R2_origin_mean_fail", decide (rand.R2_origin_mean ≤ NEG_R2_origin_mean_max)),
        ("palindrome.R2_mean_fail", decide (pal.R2_mean ≤ NEG_R2_mean_max)),
        ("palindrome.R2_origin_mean_fail", decide (pal.R2_origin_mean ≤ NEG_R2_origin_mean_max)) ]
    let passed := checks.all (fun c => c.2)
    .ok { verdict := if passed then "PASS" else "FAIL"
          checks := checks
          measured_clean := clean
          measured_random := rand
          measured_palindrome := pal
          reference_clean := ref_clean }

/-- The final two statements of `compute_verdict` write `verdict.txt`
(the verdict token plus a newline) and `verdict_details.json`.  They execute
only when no exception was raised earlier, so on the error path nothing is
written. -/
def writeVerdictFiles (r : Except String VerdictDetails) :
    Option (String × VerdictDetails) :=
  match r with
  | .ok d => some (d.verdict ++ "\n", d)
  | .error _ => none

/-- The `condition` column values of the fit summary actually produced by the
bundled engine `run_v6_2_experiment.py`: `sorted(df_raw["condition"].unique())`,
one summary row per condition. -/
def engineConditions : List String :=
  [ "coherent_bin",
    "coherent_bin_bitflip_p0.01",
    "coherent_bin_bitflip_p0.02",
    "coherent_bin_bitflip_p0.05",
    "coherent_bin_bitflip_p0.10",
    "coherent_soft",
    "coherent_soft_noise_sigma0.05",
    "coherent_soft_noise_sigma0.10",
    "coherent_soft_noise_sigma0.30",
    "palindrome_bin_no_coherence",
    "random_bin" ]

/-- A summary row for a given condition with all statistics zero (concrete
evaluation fixture). -/
def mkRow (c : String) : SummaryRow :=
  { condition := c, R2_mean := 0, R2_std := 0, beta_origin_mean := 0, R2_origin_mean := 0 }

/-- A fit summary shaped exactly like the bundled engine's output: one row per
condition of `engineConditions`. -/
def engineDf : List SummaryRow := engineConditions.map mkRow

/-- Concrete clean row fixture. -/
def wClean : SummaryRow :=
  { condition := "coherent_bin_clean", R2_mean := 9/10, R2_std := 1/100,
    beta_origin_mean := 2, R2_origin_mean := 1/2 }

/-- Concrete random-control row fixture. -/
def wRand : SummaryRow :=
  { condition := "random_bin", R2_mean := 1/10, R2_std := 1/100,
    beta_origin_mean := 1, R2_origin_mean := 1/10 }

/-- Concrete palindrome-control row fixture. -/
def wPal : SummaryRow :=
  { condition := "palindrome_bin_no_coherence", R2_mean := 1/10, R2_std := 1/100,
    beta_origin_mean := 1, R2_origin_mean := 1/10 }

/-- Concrete clean reference fixture matching `wClean` exactly. -/
def wRef : RefRow :=
  { R2_mean := 9/10, R2_std := 1/100, beta_origin_mean := 2, R2_origin_mean := 1/2 }

/-- A well-formed measured summary containing each required condition once. -/
def wDf : List SummaryRow := [wClean, wRand, wPal]

/-- A reference baseline containing the clean condition. -/
def wRefList : List (String × RefRow) := [("coherent_bin_clean", wRef)]

/-- A summary lacking the `random_bin` row. -/
def wDfMissing : List SummaryRow := [wClean, wPal]

/-- The details record `compute_verdict` produces on `wDf`/`wRefList`. -/
def wDetails : VerdictDetails :=
  { verdict := "PASS"
    checks :=
      [ ("clean.R2_mean", true), ("clean.R2_std", true),
        ("clean.beta_origin_mean", true), ("clean.R2_origin_mean", true),
        ("random.R2_mean_fail", true), ("random.R2_origin_mean_fail", true),
        ("palindrome.R2_mean_fail", true), ("palindrome.R2_origin_mean_fail", true) ]
    measured_clean := wClean
    measured_random := wRand
    measured_palindrome := wPal
    reference_clean := wRef }

end Verdict

namespace Fit

/-!
Float model for the regression code of `run_v6_2_experiment.py`: a float is
`Option ℚ`, where `none` stands for IEEE NaN.  The arithmetic below mirrors
NaN propagation on the operations the source uses (`+`, `-`, `*`, `/` with a
nonzero divisor); divisions by zero are always guarded in the source
(`if ss_tot == 0`, `if denom != 0`), and the unreachable division by a zero
float is mapped to `none`.
-/

/-- NaN-propagating addition. -/
def fadd : Option ℚ → Option ℚ → Option ℚ
  | some a, some b => some (a + b)
  | _, _ => none

/-- NaN-propagating subtraction. -/
def fsub : Option ℚ → Option ℚ → Option ℚ
  | some a, some b => some (a - b)
  | _, _ => none

/-- NaN-propagating multiplication. -/
def fmul : Option ℚ → Option ℚ → Option ℚ
  | some a, some b => some (a * b)
  | _, _ => none

/-- NaN-propagating division (the source only divides by values it has checked
to be nonzero, so the zero-divisor case is mapped to `none`). -/
def fdiv : Option ℚ → Option ℚ → Option ℚ
  | some a, some b => if b = 0 then none else some (a / b)
  | _, _ => none

/-- `np.sum` of a float array (NaN-absorbing, empty sum is `0.0`). -/
def sumF (l : List (Option ℚ)) : Option ℚ := l.foldr fadd (some 0)

/-- `np.mean` of a float array (`np.mean([])` is NaN). -/
def meanF (l : List (Option ℚ)) : Option ℚ :=
  if l.length = 0 then none else fdiv (sumF l) (some (l.length : ℚ))

/-- `r2_score(y, yhat)` from `run_v6_2_experiment.py`:
`ss_res = sum((y-yhat)^2)`, `ss_tot = sum((y-mean(y))^2)`; NaN when
`ss_tot == 0`, else `1 - ss_res/ss_tot` (itself NaN when `ss_res` or `ss_tot`
is NaN, since a NaN `ss_tot` fails the `== 0` test in Python). -/
def r2_score (y yhat : List (Option ℚ)) : Option ℚ :=
  let ss_res := sumF (List.zipWith (fun a b => fmul (fsub a b) (fsub a b)) y yhat)
  let ss_tot := sumF (y.map (fun a => fmul (fsub a (meanF y)) (fsub a (meanF y))))
  match ss_tot with
  | none => none
  | some t =>
    if t = 0 then none
    else
      match ss_res with
      | none => none
      | some r => some (1 - r / t)

/-- `np.dot` on real (non-NaN) vectors. -/
def dot (x y : List ℚ) : ℚ := (List.zipWith (· * ·) x y).sum

/-- `fit_through_origin(x, y)` from `run_v6_2_experiment.py`: slope
`beta = dot(x,y)/dot(x,x)` when the design vector has nonzero norm, NaN
otherwise; quality is `r2_score(y, beta*x)`. -/
def fit_through_origin (x y : List ℚ) : Option ℚ × Option ℚ :=
  let denom := dot x x
  let beta : Option ℚ := if denom = 0 then none else some (dot x y / denom)
  let yhat := x.map (fun xi => fmul beta (some xi))
  (beta, r2_score (y.map some) yhat)

/-- Sample mean of a rational list (characterisation device for theorem
statements; `meanQ [] = 0` by the `ℚ` division convention). -/
def meanQ (y : List ℚ) : ℚ := y.sum / y.length

/-- Total sum of squares about the sample mean, `SS_tot = Σ (y - ȳ)²`. -/
def ssTotQ (y : List ℚ) : ℚ := (y.map (fun a => (a - meanQ y) * (a - meanQ y))).sum

/-- Residual sum of squares, `SS_res = Σ (y - ŷ)²`. -/
def ssResQ (y yhat : List ℚ) : ℚ := (List.zipWith (fun a b => (a - b) * (a - b)) y yhat).sum

/-- Pandas `groupby(...).agg("mean")` on one group: NaNs are skipped
(`skipna=True`); an all-NaN group yields NaN. -/
def aggMean (vs : List (Option ℚ)) : Option ℚ :=
  let v := vs.filterMap id
  if v.length = 0 then none else some (v.sum / v.length)

/-- Pandas `groupby(...).agg("std")` on one group: NaNs are skipped, the
sample standard deviation uses the `N-1` denominator (`ddof=1`), and a group
with fewer than two valid values yields NaN. -/
noncomputable def aggStd (vs : List (Option ℚ)) : Option ℝ :=
  let v := vs.filterMap id
  if v.length < 2 then none
  else
    let μ : ℚ := v.sum / v.length
    some (Real.sqrt ((v.map (fun a => ((a - μ : ℚ) : ℝ) ^ 2)).sum / ((v.length : ℝ) - 1)))

end Fit

namespace Sig

open Classical

/-- The frozen `Params` dataclass of `run_v6_2_experiment.py`. -/
structure Params where
  n : ℕ
  replicates : ℕ
  seed : ℕ
  band : ℝ
  lambda_threshold : ℝ
  mean_abs_max : ℝ
  sign_changes_min : ℕ
  sign_changes_max : ℕ
  p_spectrum : ℝ

/-- The default (and only) parameterisation: `Params()` in `main`. -/
noncomputable def canonicalParams : Params :=
  { n := 512, replicates := 120, seed := 42, band := 8/100,
    lambda_threshold := 75/100, mean_abs_max := 10/100,
    sign_changes_min := 2, sign_changes_max := 200, p_spectrum := 27/10 }

/-- A small parameterisation used to evaluate the acceptance gates on a
concrete candidate: `n = 4`, full band, canonical `lambda_threshold`-style
positive threshold, and wide sign-change bounds. -/
noncomputable def wParams : Params :=
  { n := 4, replicates := 1, seed := 0, band := 1, lambda_threshold := 3/4,
    mean_abs_max := 1/10, sign_changes_min := 1, sign_changes_max := 10, p_spectrum := 27/10 }

/-- A parameterisation whose sign-change gate is unsatisfiable
(`sign_changes_min > sign_changes_max`), so no candidate is ever accepted. -/
noncomputable def wBadParams : Params :=
  { n := 4, replicates := 1, seed := 0, band := 1, lambda_threshold := 3/4,
    mean_abs_max := 1/10, sign_changes_min := 5, sign_changes_max := 2, p_spectrum := 27/10 }

/-- `np.mean` of a real-valued sequence. -/
noncomputable def mean (x : List ℝ) : ℝ := x.sum / x.length

/-- `Σ xᵢ²`. -/
def sumSq (x : List ℝ) : ℝ := (x.map (fun a => a * a)).sum

/-- Root-mean-square, `sqrt(mean(x*x))`. -/
noncomputable def rmsOf (x : List ℝ) : ℝ := Real.sqrt (sumSq x / x.length)

/-- The mean-centred sequence `x - mean(x)`. -/
noncomputable def centeredOf (x : List ℝ) : List ℝ := x.map (fun a => a - mean x)

open Classical in
/-- `unit_rms` from `run_v6_2_experiment.py`: subtract the mean, compute the
RMS of the centred sequence, return the centred sequence unscaled when that
RMS is zero, otherwise divide by it. -/
noncomputable def unit_rms (x : List ℝ) : List ℝ :=
  if rmsOf (centeredOf x) = 0 then centeredOf x
  else (centeredOf x).map (fun a => a / rmsOf (centeredOf x))

/-- Real part of the length-`n` DFT at bin `j` (numpy `rfft` convention,
unnormalised forward transform). -/
noncomputable def dftRe (x : List ℝ) (j : ℕ) : ℝ :=
  ∑ t ∈ Finset.range x.length, x.getD t 0 * Real.cos (2 * Real.pi * j * t / x.length)

/-- Imaginary part of the length-`n` DFT at bin `j`. -/
noncomputable def dftIm (x : List ℝ) (j : ℕ) : ℝ :=
  -∑ t ∈ Finset.range x.length, x.getD t 0 * Real.sin (2 * Real.pi * j * t / x.length)

/-- `abs(rfft(x))**2` at bin `j`. -/
noncomputable def dftPower (x : List ℝ) (j : ℕ) : ℝ := dftRe x j ^ 2 + dftIm x j ^ 2

open Classical in
/-- `low_freq_ratio(x, band)` from `run_v6_2_experiment.py`: the spectral
power at `rfft` frequencies `j/n ≤ band` divided by the total power over the
`n/2 + 1` `rfft` bins, and `0.0` when the total power is not positive. -/
noncomputable def low_freq_ratio (x : List ℝ) (band : ℝ) : ℝ :=
  let num := ∑ j ∈ (Finset.range (x.length / 2 + 1)).filter
      (fun (j : ℕ) => (j : ℝ) / (x.length : ℝ) ≤ band), dftPower x j
  let den := ∑ j ∈ Finset.range (x.length / 2 + 1), dftPower x j
  if 0 < den then num / den else 0

open Classical in
/-- `np.sign` with zeros remapped to `+1`, as done in `sign_changes_half`. -/
noncomputable def sgnPM (a : ℝ) : ℤ := if 0 ≤ a then 1 else -1

open Classical in
/-- `sign_changes_half(x)`: the number of adjacent sign changes within the
first half `x[0 : n//2]`. -/
noncomputable def sign_changes_half (x : List ℝ) : ℕ :=
  let s := (x.take (x.length / 2)).map sgnPM
  ((s.zip s.tail).filter (fun q => decide (q.1 ≠ q.2))).length

/-- The three acceptance gates of `generate_coherent_soft`, evaluated on the
normalised candidate. -/
def accepted (p : Params) (x : List ℝ) : Prop :=
  p.lambda_threshold ≤ low_freq_ratio x p.band ∧
  |mean x| ≤ p.mean_abs_max ∧
  p.sign_changes_min ≤ sign_changes_half x ∧
  sign_changes_half x ≤ p.sign_changes_max

/-- Candidate construction from a half-length signal `h`: palindromise by
concatenating `h` with its reverse, then normalise with `unit_rms`.  Every
candidate tested by the rejection loop has this form with
`h = irfft(spec, n = n//2)`. -/
noncomputable def buildCandidate (h : List ℝ) : List ℝ := unit_rms (h ++ h.reverse)

open Classical in
/-- The active frequency bins of the half-length spectrum:
`(freqs_m > 0) & (freqs_m <= band)` over `rfftfreq(m)` with `m = n // 2`. -/
noncomputable def idxBins (p : Params) : List ℕ :=
  (List.range (p.n / 2 / 2 + 1)).filter
    (fun j => decide (0 < (j : ℝ) / (p.n / 2 : ℕ)) && decide ((j : ℝ) / (p.n / 2 : ℕ) ≤ p.band))

/-- Spectral amplitude `1/f**(p_spectrum/2)` at integer bin `f = j`. -/
noncomputable def ampOf (p : Params) (j : ℕ) : ℝ := 1 / (j : ℝ) ^ (p.p_spectrum / 2)

open Classical in
/-- One drawn spectrum: zeros except at the active bins, where bin `k` gets
`amp * (cos φ + i sin φ)` for the drawn phase `φ`; if the half length `m` is
even, the Nyquist bin is forced to be purely real.  Complex numbers are
modelled as real pairs. -/
noncomputable def specOf (p : Params) (phases : List ℝ) : List (ℝ × ℝ) :=
  let m := p.n / 2
  let assoc := (idxBins p).zip phases
  let base : ℕ → ℝ × ℝ := fun j =>
    match assoc.lookup j with
    | some φ => (ampOf p j * Real.cos φ, ampOf p j * Real.sin φ)
    | none => (0, 0)
  (List.range (m / 2 + 1)).map (fun j =>
    if m % 2 = 0 ∧ j = m / 2 then ((base j).1, 0) else base j)

/-- Hermitian weight of bin `j` in the inverse real FFT of half length `m`:
`1` for the DC and (even-`m`) Nyquist bins, `2` for interior bins. -/
def cCoef (m j : ℕ) : ℝ := if j = 0 then 1 else if 2 * j = m then 1 else 2

/-- `np.fft.irfft(spec, n=m)`: the length-`m` real inverse transform
`h_t = (1/m) Σ_j c_j (Re X_j cos(2πjt/m) - Im X_j sin(2πjt/m))`. -/
noncomputable def irfftReal (spec : List (ℝ × ℝ)) (m : ℕ) : List ℝ :=
  (List.range m).map (fun t =>
    (∑ j ∈ Finset.range spec.length,
      cCoef m j * ((spec.getD j (0, 0)).1 * Real.cos (2 * Real.pi * j * t / m)
        - (spec.getD j (0, 0)).2 * Real.sin (2 * Real.pi * j * t / m))) / m)

/-- The candidate produced by one iteration of the rejection loop from the
drawn phase list `d`. -/
noncomputable def candidateOfDraw (p : Params) (d : List ℝ) : List ℝ :=
  buildCandidate (irfftReal (specOf p d) (p.n / 2))

open Classical in
/-- Fuel-indexed semantics of the unbounded `while True` rejection loop of
`generate_coherent_soft`: attempt `i` consumes the fresh draw `draws i`; an
accepted candidate is returned together with its `(λ, mean, sign_changes)`
diagnostics; a rejected candidate is discarded and the loop recurses on the
shifted draw stream.  `none` means the loop has not terminated within `fuel`
attempts; the source has no attempt bound at all. -/
noncomputable def generateFuel (p : Params) (draws : ℕ → List ℝ) :
    ℕ → Option (List ℝ × ℝ × ℝ × ℕ)
  | 0 => none
  | fuel + 1 =>
    let x := candidateOfDraw p (draws 0)
    if accepted p x then some (x, low_freq_ratio x p.band, mean x, sign_changes_half x)
    else generateFuel p (fun i => draws (i + 1)) fuel

open Classical in
/-- `generate_coherent_soft` including its initial `band too small` guard
(the `RuntimeError` raised before the loop when no frequency bin is active). -/
noncomputable def generate_coherent_soft (p : Params) (draws : ℕ → List ℝ) (fuel : ℕ) :
    Except String (Option (List ℝ × ℝ × ℝ × ℕ)) :=
  if idxBins p = [] then .error "band too small; no frequency bins available"
  else .ok (generateFuel p draws fuel)

/-- `np.roll(x, -k)`: cyclic left rotation by `k`. -/
def rotl (k : ℕ) (x : List ℝ) : List ℝ :=
  x.drop (k % x.length) ++ x.take (k % x.length)

/-- `corr_mean(x_ref, x_other) = np.mean(x_ref * x_other)`. -/
noncomputable def corr_mean (x y : List ℝ) : ℝ :=
  (List.zipWith (· * ·) x y).sum / x.length

open Classical in
/-- `to_bin(x) = np.where(x >= 0, 1.0, -1.0)`. -/
noncomputable def to_bin (x : List ℝ) : List ℝ :=
  x.map (fun a => if 0 ≤ a then 1 else -1)

/-- Bit-flip corruption: positions where the drawn mask is `true` get their
sign flipped (`xk[flips] *= -1.0`). -/
def applyFlips (mask : List Bool) (x : List ℝ) : List ℝ :=
  List.zipWith (fun b v => if b then -v else v) mask x

/-- The palindromic negative control: an i.i.d. `±1` half mirrored onto
itself (`np.concatenate([half, half[::-1]])`). -/
def palinBin (half : List ℝ) : List ℝ := half ++ half.reverse

/-- `E = 2 - 2C`. -/
def energyOf (c : ℝ) : ℝ := 2 - 2 * c

end Sig

namespace Checker

/-- The observable inputs of `tools/check_official_replication.py`: whether
the `paper_ready` directory exists, which required files are present, the
parse result of `verdict_details.json` (a flat string-valued JSON object,
`none` for a parse failure), and the raw text of
`tables/fit_summary_by_condition.csv`. -/
structure CheckerInput where
  dirExists : Bool
  filesPresent : List String
  verdictParse : Option (List (String × String))
  csvText : String

/-- `REQUIRED` from the checker. -/
def REQUIRED : List String :=
  [ "verdict_details.json", "run_manifest.json", "hashes.txt",
    "tables/fit_summary_by_condition.csv" ]

/-- `EXPECTED_CONDITIONS` from the checker. -/
def EXPECTED_CONDITIONS : List String :=
  [ "coherent_bin_clean", "random_bin", "palindrome_bin_no_coherence" ]

/-- Python `str.upper()`, modelled as per-character uppercasing of the
string's characters. -/
def strUpper (s : String) : String := ⟨s.data.map Char.toUpper⟩

/-- Python substring test `needle in hay`. -/
def hasSub (needle hay : String) : Bool := decide (needle.toList <:+: hay.toList)

/-- `verdict.get(k)` under Python truthiness: an absent key and an empty
string are both falsy and make the `or`-chain continue. -/
def getField (v : List (String × String)) (k : String) : Option String :=
  match v.lookup k with
  | some s => if s = "" then none else some s
  | none => none

/-- `verdict.get("status") or verdict.get("verdict") or verdict.get("overall")
or verdict.get("result")`. -/
def statusOf (v : List (String × String)) : Option String :=
  match getField v "status" with
  | some s => some s
  | none =>
    match getField v "verdict" with
    | some s => some s
    | none =>
      match getField v "overall" with
      | some s => some s
      | none => getField v "result"

/-- `main` of `tools/check_official_replication.py` (after argument parsing):
returns the printed head line and the process exit code.  The multi-line
missing-files report is represented by its head line. -/
def checkMain (inp : CheckerInput) : String × ℕ :=
  if inp.dirExists = false then ("NOT_COMPARABLE (paper_ready directory not found)", 1)
  else if (REQUIRED.filter (fun r => !(inp.filesPresent.contains r))) ≠ [] then
    ("NOT_COMPARABLE (missing required files):", 1)
  else
    match inp.verdictParse with
    | none => ("NOT_COMPARABLE (cannot parse verdict_details.json)", 1)
    | some v =>
      match statusOf v with
      | none => ("NOT_COMPARABLE (no status/verdict field in verdict_details.json)", 1)
      | some status =>
        match EXPECTED_CONDITIONS.find? (fun c => !(hasSub c inp.csvText)) with
        | some c =>
          ("NOT_COMPARABLE (missing condition in fit_summary_by_condition.csv): " ++ c, 1)
        | none =>
          if hasSub "PASS" (strUpper status) then ("OFFICIAL_REPLICATION_PASS", 0)
          else if hasSub "FAIL" (strUpper status) then ("OFFICIAL_REPLICATION_FAIL", 0)
          else ("OFFICIAL_REPLICATION (status=" ++ status ++ ")", 0)

/-- A well-formed checker input whose verdict status token is neither `PASS`
nor `FAIL`. -/
def wOddInput : CheckerInput :=
  { dirExists := true
    filesPresent := REQUIRED
    verdictParse := some [("verdict", "DONE")]
    csvText := "coherent_bin_clean random_bin palindrome_bin_no_coherence" }

/-- A well-formed checker input carrying a `PASS` verdict. -/
def wPassInput : CheckerInput :=
  { dirExists := true
    filesPresent := REQUIRED
    verdictParse := some [("verdict", "PASS")]
    csvText := "coherent_bin_clean random_bin palindrome_bin_no_coherence" }

end Checker

namespace Verdict

lemma row_ok_filter_length {df : List SummaryRow} {c : String} {r : SummaryRow}
    (h : row df c = .ok r) : (df.filter (fun s => s.condition == c)).length = 1 := by
  unfold row at h
  rcases hf : df.filter (fun s => s.condition == c) with _ | ⟨a, _ | ⟨b, l⟩⟩ <;>
    simp [hf] at h ⊢

lemma refLookup_ok_lookup {ref : List (String × RefRow)} {c : String} {r : RefRow}
    (h : refLookup ref c = .ok r) : ref.lookup c = some r := by
  unfold refLookup at h
  rcases hl : ref.lookup c with _ | s <;> simp [hl] at h ⊢
  exact h

lemma filter_eq_nil_of_conditions {df : List SummaryRow} {c : String}
    (hmap : df.map (fun r => r.condition) = engineConditions)
    (hc : c ∉ engineConditions) :
    df.filter (fun r => r.condition == c) = [] := by
  rw [List.filter_eq_nil_iff]
  intro a ha
  have : a.condition ∈ engineConditions := by
    rw [← hmap]; exact List.mem_map_of_mem _ ha
  simp only [beq_iff_eq]
  intro hEq
  exact hc (hEq ▸ this)

/-- C1: the end-to-end pipeline cannot report a verdict at all.  The fit
summary produced by the bundled engine contains the condition `coherent_bin`
but no `coherent_bin_clean` row, so for every summary with the engine's
condition column and every reference baseline, `compute_verdict` raises
`ValueError` at the very first row lookup, and neither `verdict.txt` nor
`verdict_details.json` is written — no PASS/FAIL verdict is ever produced. -/
theorem c1_engine_summary_breaks_compute_verdict
    (df : List SummaryRow) (ref : List (String × RefRow))
    (hmap : df.map (fun r => r.condition) = engineConditions) :
    compute_verdict df ref = .error "Condition not found or ambiguous: coherent_bin_clean" ∧
    writeVerdictFiles (compute_verdict df ref) = none := by
  have hnil : df.filter (fun r => r.condition == "coherent_bin_clean") = [] :=
    filter_eq_nil_of_conditions hmap (by decide)
  have hrow : row df "coherent_bin_clean" =
      .error "Condition not found or ambiguous: coherent_bin_clean" := by
    unfold row; rw [hnil]; rfl
  refine ⟨?_, ?_⟩
  · unfold compute_verdict; rw [hrow]
  · unfold writeVerdictFiles compute_verdict; rw [hrow]

/-- A verdict token built from a Boolean is `PASS` exactly when the Boolean
holds. -/
lemma verdict_token_iff (b : Bool) : ((if b then "PASS" else "FAIL") = "PASS") ↔ b = true := by
  cases b
  · simp only [if_neg Bool.false_ne_true, Bool.false_eq_true, iff_false]
    decide
  · simp

/-- Witness for C1 at a concrete engine-shaped summary. -/
theorem c1_engine_summary_breaks_compute_verdict_witness :
    engineDf.map (fun r => r.condition) = engineConditions ∧
    compute_verdict engineDf [] =
      .error "Condition not found or ambiguous: coherent_bin_clean" ∧
    writeVerdictFiles (compute_verdict engineDf []) = none := by
  have hmap : engineDf.map (fun r => r.condition) = engineConditions := by decide
  exact ⟨hmap, (c1_engine_summary_breaks_compute_verdict engineDf [] hmap).1,
    (c1_engine_summary_breaks_compute_verdict engineDf [] hmap).2⟩

/-- C2: whenever `compute_verdict` succeeds, the verdict token is `PASS`
exactly when all eight itemized checks hold; the emitted details record each
check's name and boolean outcome individually (with the four clean
reference-matching checks followed by the four negative-control ceiling
checks, computed from the recorded measured and reference values); and the
relative-tolerance comparison degenerates to the absolute check
`|measured| ≤ tolerance` when the reference value is exactly zero. -/
theorem c2_verdict_conjunction_and_itemized_checks :
    (∀ (df : List SummaryRow) (ref : List (String × RefRow)) (d : VerdictDetails),
      compute_verdict df ref = .ok d →
      (d.verdict = "PASS" ↔ d.checks.all (fun c => c.2) = true) ∧
      d.checks =
        [ ("clean.R2_mean",
            within_abs d.measured_clean.R2_mean d.reference_clean.R2_mean TOL_R2_mean_abs),
          ("clean.R2_std",
            within_abs d.measured_clean.R2_std d.reference_clean.R2_std TOL_R2_std_abs),
          ("clean.beta_origin_mean",
            within_rel d.measured_clean.beta_origin_mean d.reference_clean.beta_origin_mean
              TOL_beta_origin_mean_rel),
          ("clean.R2_origin_mean",
            within_abs d.measured_clean.R2_origin_mean d.reference_clean.R2_origin_mean
              TOL_R2_origin_mean_abs),
          ("random.R2_mean_fail", decide (d.measured_random.R2_mean ≤ NEG_R2_mean_max)),
          ("random.R2_origin_mean_fail",
            decide (d.measured_random.R2_origin_mean ≤ NEG_R2_origin_mean_max)),
          ("palindrome.R2_mean_fail", decide (d.measured_palindrome.R2_mean ≤ NEG_R2_mean_max)),
          ("palindrome.R2_origin_mean_fail",
            decide (d.measured_palindrome.R2_origin_mean ≤ NEG_R2_origin_mean_max)) ]) ∧
    (∀ val tol : ℚ, within_rel val 0 tol = true ↔ |val| ≤ tol) := by
  constructor
  · intro df ref d h
    unfold compute_verdict at h
    rcases h1 : row df "coherent_bin_clean" with e1 | clean <;> rw [h1] at h
    · simp at h
    rcases h2 : row df "random_bin" with e2 | rand <;> rw [h2] at h
    · simp at h
    rcases h3 : row df "palindrome_bin_no_coherence" with e3 | pal <;> rw [h3] at h
    · simp at h
    rcases h4 : refLookup ref "coherent_bin_clean" with e4 | ref_clean <;> rw [h4] at h
    · simp at h
    simp only [Except.ok.injEq] at h
    subst h
    exact ⟨verdict_token_iff _, rfl⟩
  · intro val tol
    simp [within_rel]

/-- Witness for C2 at a concrete summary and reference that make every check
pass. -/
theorem c2_verdict_conjunction_and_itemized_checks_witness :
    compute_verdict wDf wRefList = .ok wDetails ∧
    (wDetails.verdict = "PASS" ↔ wDetails.checks.all (fun c => c.2) = true) ∧
    (within_rel 1 0 2 = true ↔ |(1 : ℚ)| ≤ 2) := by
  have h : compute_verdict wDf wRefList = .ok wDetails := by
    unfold compute_verdict row refLookup
    simp [wDf, wDetails, wClean, wRand, wPal, wRef, wRefList, List.filter, List.lookup]
    norm_num [within_abs, within_rel, TOL_R2_mean_abs, TOL_R2_std_abs,
      TOL_beta_origin_mean_rel, TOL_R2_origin_mean_abs, NEG_R2_mean_max, NEG_R2_origin_mean_max]
  exact ⟨h, (c2_verdict_conjunction_and_itemized_checks.1 wDf wRefList wDetails h).1,
    c2_verdict_conjunction_and_itemized_checks.2 1 2⟩

/-- C5: when the measured summary lacks a required condition row (or has a
duplicated, hence ambiguous, one), or the reference baseline lacks the clean
condition, `compute_verdict` propagates an error to the caller and neither
the verdict token file nor the verdict details file is written. -/
theorem c5_missing_inputs_fatal_no_partial_verdict
    (df : List SummaryRow) (ref : List (String × RefRow))
    (hbad : (df.filter (fun r => r.condition == "coherent_bin_clean")).length ≠ 1 ∨
      (df.filter (fun r => r.condition == "random_bin")).length ≠ 1 ∨
      (df.filter (fun r => r.condition == "palindrome_bin_no_coherence")).length ≠ 1 ∨
      ref.lookup "coherent_bin_clean" = none) :
    (compute_verdict df ref).toOption = none ∧
    writeVerdictFiles (compute_verdict df ref) = none := by
  rcases hres : compute_verdict df ref with e | d
  · simp [writeVerdictFiles, Except.toOption]
  · exfalso
    unfold compute_verdict at hres
    rcases h1 : row df "coherent_bin_clean" with e1 | clean <;> rw [h1] at hres
    · simp at hres
    rcases h2 : row df "random_bin" with e2 | rand <;> rw [h2] at hres
    · simp at hres
    rcases h3 : row df "palindrome_bin_no_coherence" with e3 | pal <;> rw [h3] at hres
    · simp at hres
    rcases h4 : refLookup ref "coherent_bin_clean" with e4 | ref_clean <;> rw [h4] at hres
    · simp at hres
    rcases hbad with hb | hb | hb | hb
    · exact hb (row_ok_filter_length h1)
    · exact hb (row_ok_filter_length h2)
    · exact hb (row_ok_filter_length h3)
    · rw [refLookup_ok_lookup h4] at hb; cases hb

/-- Witness for C5 at a summary lacking the `random_bin` row. -/
theorem c5_missing_inputs_fatal_no_partial_verdict_witness :
    (wDfMissing.filter (fun r => r.condition == "random_bin")).length ≠ 1 ∧
    (compute_verdict wDfMissing wRefList).toOption = none ∧
    writeVerdictFiles (compute_verdict wDfMissing wRefList) = none := by
  have hb : (wDfMissing.filter (fun r => r.condition == "random_bin")).length ≠ 1 := by decide
  have h := c5_missing_inputs_fatal_no_partial_verdict wDfMissing wRefList (Or.inr (Or.inl hb))
  exact ⟨hb, h.1, h.2⟩

end Verdict

namespace Fit

lemma sumF_cons (a : Option ℚ) (l : List (Option ℚ)) : sumF (a :: l) = fadd a (sumF l) := rfl

lemma sumF_map_some (l : List ℚ) : sumF (l.map some) = some l.sum := by
  induction l with
  | nil => rfl
  | cons a t ih => simp [sumF_cons, ih, fadd]

lemma meanF_map_some (l : List ℚ) (h : l ≠ []) : meanF (l.map some) = some (meanQ l) := by
  have h0 : l.length ≠ 0 := fun hh => h (List.length_eq_zero.mp hh)
  have hq : ((l.length : ℚ)) ≠ 0 := Nat.cast_ne_zero.mpr h0
  unfold meanF meanQ
  simp [List.length_map, h0, sumF_map_some, fdiv, hq]

lemma ssRes_eval (y yhat : List ℚ) :
    sumF (List.zipWith (fun a b => fmul (fsub a b) (fsub a b)) (y.map some) (yhat.map some))
      = some (ssResQ y yhat) := by
  induction y generalizing yhat with
  | nil => simp [sumF, ssResQ]
  | cons a t ih =>
    cases yhat with
    | nil => simp [sumF, ssResQ]
    | cons b s =>
      simp only [List.map_cons, List.zipWith_cons_cons, sumF_cons]
      rw [ih]
      simp [fsub, fmul, fadd, ssResQ, List.zipWith_cons_cons]

lemma ssTot_eval (y : List ℚ) (h : y ≠ []) :
    sumF ((y.map some).map
      (fun a => fmul (fsub a (meanF (y.map some))) (fsub a (meanF (y.map some)))))
      = some (ssTotQ y) := by
  rw [meanF_map_some y h, List.map_map]
  have hc : ((fun a => fmul (fsub a (some (meanQ y))) (fsub a (some (meanQ y)))) ∘ some)
      = fun a => some ((a - meanQ y) * (a - meanQ y)) := by
    funext a; simp [fsub, fmul]
  rw [hc]
  have hm : (y.map fun a => some ((a - meanQ y) * (a - meanQ y)))
      = (y.map fun a => (a - meanQ y) * (a - meanQ y)).map some := by
    rw [List.map_map]; rfl
  rw [hm, sumF_map_some, ssTotQ]

lemma r2_score_some (y yhat : List ℚ) :
    r2_score (y.map some) (yhat.map some) =
      if ssTotQ y = 0 then none else some (1 - ssResQ y yhat / ssTotQ y) := by
  by_cases h : y = []
  · subst h
    simp [r2_score, sumF, ssResQ, ssTotQ, meanQ]
  · simp only [r2_score, ssTot_eval y h, ssRes_eval]

lemma sum_sq_zero_list (l : List ℚ) (g : ℚ → ℚ)
    (h : (l.map (fun a => g a * g a)).sum = 0) : ∀ a ∈ l, g a = 0 := by
  induction l with
  | nil => simp
  | cons a t ih =>
    simp only [List.map_cons, List.sum_cons] at h
    have hnn : 0 ≤ (t.map (fun a => g a * g a)).sum := by
      apply List.sum_nonneg
      intro x hx
      obtain ⟨b, _, rfl⟩ := List.mem_map.mp hx
      exact mul_self_nonneg _
    have ha : g a * g a = 0 := by nlinarith [mul_self_nonneg (g a)]
    have hS : (t.map (fun a => g a * g a)).sum = 0 := by linarith
    intro x hx
    rcases List.mem_cons.mp hx with rfl | hx'
    · exact mul_self_eq_zero.mp ha
    · exact ih hS x hx'

lemma dot_self_eq_sum_sq (x : List ℚ) : dot x x = (x.map (fun a => a * a)).sum := by
  induction x with
  | nil => rfl
  | cons a t ih => simp [dot, List.zipWith_cons_cons] at ih ⊢

lemma dot_map_mul (b : ℚ) (x : List ℚ) : dot x (x.map (fun t => b * t)) = b * dot x x := by
  induction x with
  | nil => simp [dot]
  | cons a t ih =>
    simp only [dot, List.map_cons, List.zipWith_cons_cons, List.sum_cons] at ih ⊢
    rw [ih]; ring

lemma sum_map_mul_factor (c : ℚ) (g : ℚ → ℚ) (l : List ℚ) :
    (l.map (fun t => c * g t)).sum = c * (l.map g).sum := by
  induction l with
  | nil => simp
  | cons a t ih => simp [ih]; ring

lemma sum_map_scale (b : ℚ) (l : List ℚ) : (l.map (fun t => b * t)).sum = b * l.sum := by
  induction l with
  | nil => simp
  | cons a t ih => simp [ih]; ring

lemma meanQ_scale (b : ℚ) (l : List ℚ) : meanQ (l.map (fun t => b * t)) = b * meanQ l := by
  unfold meanQ
  rw [List.length_map, sum_map_scale, mul_div_assoc]

lemma ssTotQ_scale (b : ℚ) (l : List ℚ) :
    ssTotQ (l.map (fun t => b * t)) = b * b * ssTotQ l := by
  unfold ssTotQ
  rw [meanQ_scale, List.map_map]
  have hc : ((fun a => (a - b * meanQ l) * (a - b * meanQ l)) ∘ fun t => b * t)
      = fun t => b * b * ((t - meanQ l) * (t - meanQ l)) := by
    funext t; simp [Function.comp]; ring
  rw [hc]
  have := sum_map_mul_factor (b * b) (fun t => (t - meanQ l) * (t - meanQ l)) l
  simpa using this

lemma ssResQ_self (y : List ℚ) : ssResQ y y = 0 := by
  induction y with
  | nil => rfl
  | cons a t ih => simp [ssResQ, List.zipWith_cons_cons] at ih ⊢

lemma ssTotQ_ne_zero_of_two_ne (l : List ℚ) (u v : ℚ) (hu : u ∈ l) (hv : v ∈ l)
    (huv : u ≠ v) : ssTotQ l ≠ 0 := by
  intro h0
  have hall := sum_sq_zero_list l (fun a => a - meanQ l) h0
  have h1 : u - meanQ l = 0 := hall u hu
  have h2 : v - meanQ l = 0 := hall v hv
  apply huv; linarith

lemma dot_self_ne_zero_of_two_ne (l : List ℚ) (u v : ℚ) (hu : u ∈ l) (hv : v ∈ l)
    (huv : u ≠ v) : dot l l ≠ 0 := by
  intro h0
  rw [dot_self_eq_sum_sq] at h0
  have hall := sum_sq_zero_list l (fun a => a) h0
  have h1 : u = 0 := hall u hu
  have h2 : v = 0 := hall v hv
  exact huv (h1.trans h2.symm)

/-- C6: degenerate regressions yield NaN rather than an error: a zero total
sum of squares (constant target) makes the fit quality NaN; a zero-norm
design vector makes the origin-fit slope NaN; the pandas aggregation skips
NaNs without failing; and a group with fewer than two replicates has a NaN
sample standard deviation (the `N-1`-denominator formula in `aggStd` being
undefined there). -/
theorem c6_degenerate_fits_yield_nan :
    (∀ y yhat : List ℚ, ssTotQ y = 0 → r2_score (y.map some) (yhat.map some) = none) ∧
    (∀ x y : List ℚ, dot x x = 0 → (fit_through_origin x y).1 = none) ∧
    (∀ vs : List (Option ℚ), aggMean (none :: vs) = aggMean vs ∧
      aggStd (none :: vs) = aggStd vs) ∧
    (∀ vs : List (Option ℚ), vs.length < 2 → aggStd vs = none) := by
  refine ⟨?_, ?_, ?_, ?_⟩
  · intro y yhat h
    rw [r2_score_some, if_pos h]
  · intro x y h
    simp [fit_through_origin, h]
  · intro vs
    constructor <;> simp [aggMean, aggStd]
  · intro vs h
    have hle : (vs.filterMap id).length ≤ vs.length := List.length_filterMap_le id vs
    simp [aggStd, lt_of_le_of_lt hle h]

/-- Witness for C6 on concrete degenerate inputs. -/
theorem c6_degenerate_fits_yield_nan_witness :
    ssTotQ [2, 2] = 0 ∧ r2_score ([2, 2].map some) ([0, 1].map some) = none ∧
    dot ([0, 0] : List ℚ) [0, 0] = 0 ∧ (fit_through_origin [0, 0] [1, 2]).1 = none ∧
    aggStd [none, some 1] = aggStd [some 1] ∧
    ([some (5 : ℚ)].length < 2) ∧ aggStd [some 5] = none := by
  have h1 : ssTotQ ([2, 2] : List ℚ) = 0 := by
    simp [ssTotQ, meanQ]
  have h2 : dot ([0, 0] : List ℚ) [0, 0] = 0 := by
    simp [dot]
  have h3 : ([some (5 : ℚ)].length < 2) := by simp
  obtain ⟨a, b, c, d⟩ := c6_degenerate_fits_yield_nan
  exact ⟨h1, a _ _ h1, h2, b _ _ h2, (c [some 1]).2, h3, d [some 5] h3⟩

/-- C7 counterexample: for `β = 0` on the non-constant grid `θ² = [0, 1]`,
the data generated exactly by `E = β·θ²` is the constant zero list, and the
origin fit returns slope `0` with NaN quality, not `R² = 1`. -/
theorem c7_beta_zero_counterexample :
    (([0, 1] : List ℚ).map (fun t => 0 * t) = [0, 0]) ∧
    fit_through_origin [0, 1] [0, 0] = (some 0, none) := by
  constructor
  · simp
  · have hd : dot ([0, 1] : List ℚ) [0, 1] = 1 := by simp [dot]
    have hn : dot ([0, 1] : List ℚ) [0, 0] = 0 := by simp [dot]
    have h00 : ssTotQ ([0, 0] : List ℚ) = 0 := by simp [ssTotQ, meanQ]
    simp only [fit_through_origin, hd, hn]
    rw [if_neg one_ne_zero]
    norm_num
    have hml : ([fmul (some (0 : ℚ)) (some 0), fmul (some 0) (some 1)] : List (Option ℚ))
        = ([0, 0] : List ℚ).map some := by simp [fmul]
    have hy : ([some (0 : ℚ), some 0] : List (Option ℚ)) = ([0, 0] : List ℚ).map some := by simp
    rw [hml, hy, r2_score_some, if_pos h00]

/-- C7 amended: the origin-constrained fit quality is
`R² = 1 - SS_res/SS_tot` with `SS_tot` taken about the sample mean of `E`
(whenever that denominator is nonzero), and for every nonzero slope `β` and
non-constant `θ²` grid, fitting data generated exactly by `E = β·θ²` returns
slope `β` and `R² = 1`; the `β = 0` case is excluded because there the target
is constant and the quality is NaN. -/
theorem c7_origin_fit_ss_tot_about_mean :
    (∀ y yhat : List ℚ, ssTotQ y ≠ 0 →
      r2_score (y.map some) (yhat.map some) = some (1 - ssResQ y yhat / ssTotQ y)) ∧
    (∀ (b : ℚ) (xs : List ℚ), b ≠ 0 → (∃ u ∈ xs, ∃ v ∈ xs, u ≠ v) →
      fit_through_origin xs (xs.map (fun t => b * t)) = (some b, some 1)) := by
  constructor
  · intro y yhat h
    rw [r2_score_some, if_neg h]
  · rintro b xs hb ⟨u, hu, v, hv, huv⟩
    have hdot : dot xs xs ≠ 0 := dot_self_ne_zero_of_two_ne xs u v hu hv huv
    have htot : ssTotQ xs ≠ 0 := ssTotQ_ne_zero_of_two_ne xs u v hu hv huv
    have hyhat : xs.map (fun xi => fmul (some b) (some xi))
        = (xs.map (fun t => b * t)).map some := by
      rw [List.map_map]
      simp [fmul, Function.comp]
    have hbeta : b * dot xs xs / dot xs xs = b := by field_simp
    simp only [fit_through_origin, dot_map_mul, if_neg hdot, hbeta, hyhat]
    rw [r2_score_some, ssTotQ_scale, ssResQ_self]
    have hne : b * b * ssTotQ xs ≠ 0 := mul_ne_zero (mul_ne_zero hb hb) htot
    simp [hne]

/-- Witness for C7's amended statement at `β = 3` on the grid `θ² = [0, 1]`
(the spec's own example `E = 3·θ²`), and for the `SS_tot` characterisation at
a non-degenerate target. -/
theorem c7_origin_fit_ss_tot_about_mean_witness :
    ssTotQ [0, 3] ≠ 0 ∧
    r2_score ([0, 3].map some) ([0, 3].map some)
      = some (1 - ssResQ [0, 3] [0, 3] / ssTotQ [0, 3]) ∧
    ((3 : ℚ) ≠ 0) ∧ (∃ u ∈ ([0, 1] : List ℚ), ∃ v ∈ ([0, 1] : List ℚ), u ≠ v) ∧
    fit_through_origin [0, 1] (([0, 1] : List ℚ).map (fun t => 3 * t)) = (some 3, some 1) := by
  have h1 : ssTotQ ([0, 3] : List ℚ) ≠ 0 := by
    simp [ssTotQ, meanQ]
    norm_num
  have h2 : (3 : ℚ) ≠ 0 := by norm_num
  have h3 : ∃ u ∈ ([0, 1] : List ℚ), ∃ v ∈ ([0, 1] : List ℚ), u ≠ v := by
    refine ⟨0, by simp, 1, by simp, by norm_num⟩
  exact ⟨h1, c7_origin_fit_ss_tot_about_mean.1 [0, 3] [0, 3] h1, h2, h3,
    c7_origin_fit_ss_tot_about_mean.2 3 [0, 1] h2 h3⟩

end Fit

namespace Sig

lemma sumSq_cons (a : ℝ) (l : List ℝ) : sumSq (a :: l) = a * a + sumSq l := by
  simp [sumSq]

lemma sumSq_nonneg (x : List ℝ) : 0 ≤ sumSq x := by
  apply List.sum_nonneg
  intro a ha
  obtain ⟨b, _, rfl⟩ := List.mem_map.mp ha
  exact mul_self_nonneg b

lemma all_zero_of_sumSq_zero (x : List ℝ) (h : sumSq x = 0) : ∀ a ∈ x, a = 0 := by
  induction x with
  | nil => simp
  | cons a t ih =>
    rw [sumSq_cons] at h
    have ht : 0 ≤ sumSq t := sumSq_nonneg t
    have ha : a * a = 0 := by nlinarith [mul_self_nonneg a]
    have hS : sumSq t = 0 := by linarith
    intro b hb
    rcases List.mem_cons.mp hb with rfl | hb'
    · exact mul_self_eq_zero.mp ha
    · exact ih hS b hb'

lemma rmsOf_zero_of_sumSq_zero (x : List ℝ) (h : sumSq x = 0) : rmsOf x = 0 := by
  unfold rmsOf
  rw [h, zero_div, Real.sqrt_zero]

lemma sumSq_zero_of_rms_zero (x : List ℝ) (h : rmsOf x = 0) : sumSq x = 0 := by
  by_cases hx : x = []
  · subst hx; rfl
  · have hlen : (0 : ℝ) < x.length := by
      exact_mod_cast List.length_pos.mpr hx
    unfold rmsOf at h
    rw [Real.sqrt_eq_zero'] at h
    have hmul : sumSq x / x.length * x.length ≤ 0 :=
      mul_nonpos_of_nonpos_of_nonneg h (le_of_lt hlen)
    rw [div_mul_cancel₀ _ (ne_of_gt hlen)] at hmul
    linarith [sumSq_nonneg x]

lemma sumSq_map_div (x : List ℝ) (r : ℝ) :
    sumSq (x.map (fun a => a / r)) = sumSq x / (r * r) := by
  induction x with
  | nil => simp [sumSq]
  | cons a t ih =>
    simp only [List.map_cons, sumSq_cons, ih]
    rw [div_mul_div_comm, add_div]

lemma rmsOf_div_rms (y : List ℝ) (h : rmsOf y ≠ 0) :
    rmsOf (y.map (fun a => a / rmsOf y)) = 1 := by
  have hs : sumSq y ≠ 0 := fun h0 => h (rmsOf_zero_of_sumSq_zero y h0)
  have hy : y ≠ [] := by
    rintro rfl
    exact h (by simp [rmsOf, sumSq])
  have hn : ((y.length : ℝ)) ≠ 0 :=
    Nat.cast_ne_zero.mpr (fun hh => hy (List.length_eq_zero.mp hh))
  set r := rmsOf y with hrdef
  have hrr : r * r = sumSq y / y.length := by
    rw [hrdef]
    unfold rmsOf
    exact Real.mul_self_sqrt (div_nonneg (sumSq_nonneg y) (Nat.cast_nonneg _))
  unfold rmsOf
  rw [sumSq_map_div, List.length_map, hrr]
  have hone : sumSq y / (sumSq y / (y.length : ℝ)) / (y.length : ℝ) = 1 := by
    field_simp
  rw [hone, Real.sqrt_one]

/-- C8 amended: `unit_rms` first centres its input; when the centred sequence
has nonzero energy the result has RMS exactly `1`; when the centred energy is
zero (a constant input — not only a zero-energy input) the guard takes the
no-division branch and returns the centred, all-zero sequence, which is the
input unchanged only if the input was already all zeros.  The division by the
RMS is guarded by the `rms == 0` test and never divides by zero. -/
theorem c8_unit_rms_normalises_or_centred_zero (x : List ℝ) :
    (sumSq (centeredOf x) ≠ 0 → rmsOf (unit_rms x) = 1) ∧
    (sumSq (centeredOf x) = 0 →
      unit_rms x = centeredOf x ∧ ∀ a ∈ unit_rms x, a = 0) := by
  constructor
  · intro hne
    have hr : rmsOf (centeredOf x) ≠ 0 := fun h0 => hne (sumSq_zero_of_rms_zero _ h0)
    unfold unit_rms
    rw [if_neg hr]
    exact rmsOf_div_rms _ hr
  · intro h0
    have hr : rmsOf (centeredOf x) = 0 := rmsOf_zero_of_sumSq_zero _ h0
    unfold unit_rms
    rw [if_pos hr]
    exact ⟨rfl, fun a ha => all_zero_of_sumSq_zero _ h0 a ha⟩

/-- C8 counterexample: the constant input `[1, 1]` has RMS `1` (so its energy
is not "identically zero"), yet `unit_rms [1, 1] = [0, 0]`: the result's RMS
is `0`, not `1`, and the input is not returned unchanged — the claim's
exception clause mischaracterises the guarded branch, which returns the
centred sequence, not the input. -/
theorem c8_unit_rms_constant_input_counterexample :
    unit_rms [1, 1] = [0, 0] ∧ rmsOf (unit_rms [1, 1]) = 0 ∧
    rmsOf [1, 1] = 1 ∧ unit_rms [1, 1] ≠ [1, 1] := by
  have hc : centeredOf [1, 1] = [0, 0] := by
    norm_num [centeredOf, mean]
  have hr0 : rmsOf ([0, 0] : List ℝ) = 0 := by
    norm_num [rmsOf, sumSq, Real.sqrt_zero]
  have h1 : unit_rms [1, 1] = [0, 0] := by
    unfold unit_rms
    rw [hc, hr0]
    simp
  have h2 : rmsOf [1, 1] = 1 := by
    norm_num [rmsOf, sumSq]
  refine ⟨h1, by rw [h1]; exact hr0, h2, by rw [h1]; simp⟩

/-- Witness for C8's amended statement at a non-constant and a constant
input. -/
theorem c8_unit_rms_normalises_or_centred_zero_witness :
    sumSq (centeredOf [1, -1]) ≠ 0 ∧ rmsOf (unit_rms [1, -1]) = 1 ∧
    sumSq (centeredOf [1, 1]) = 0 ∧ unit_rms [1, 1] = centeredOf [1, 1] ∧
    (∀ a ∈ unit_rms [1, 1], a = 0) := by
  have ha : sumSq (centeredOf [1, -1]) ≠ 0 := by
    norm_num [centeredOf, mean, sumSq]
  have hb : sumSq (centeredOf [1, 1]) = 0 := by
    norm_num [centeredOf, mean, sumSq]
  exact ⟨ha, (c8_unit_rms_normalises_or_centred_zero [1, -1]).1 ha, hb,
    ((c8_unit_rms_normalises_or_centred_zero [1, 1]).2 hb).1,
    ((c8_unit_rms_normalises_or_centred_zero [1, 1]).2 hb).2⟩

end Sig

namespace Sig

lemma getD_zero_of_all_zero (x : List ℝ) (h : ∀ a ∈ x, a = 0) (t : ℕ) :
    x.getD t 0 = 0 := by
  rcases Nat.lt_or_ge t x.length with ht | ht
  · rw [List.getD_eq_getElem x 0 ht]
    exact h _ (x.getElem_mem ht)
  · exact List.getD_eq_default x 0 ht

lemma dftRe_zero_of_all_zero (x : List ℝ) (h : ∀ a ∈ x, a = 0) (j : ℕ) :
    dftRe x j = 0 := by
  unfold dftRe
  apply Finset.sum_eq_zero
  intro t _
  rw [getD_zero_of_all_zero x h t, zero_mul]

lemma dftIm_zero_of_all_zero (x : List ℝ) (h : ∀ a ∈ x, a = 0) (j : ℕ) :
    dftIm x j = 0 := by
  unfold dftIm
  rw [neg_eq_zero]
  apply Finset.sum_eq_zero
  intro t _
  rw [getD_zero_of_all_zero x h t, zero_mul]

lemma lfr_zero_of_all_zero (x : List ℝ) (band : ℝ) (h : ∀ a ∈ x, a = 0) :
    low_freq_ratio x band = 0 := by
  have hden : ∑ j ∈ Finset.range (x.length / 2 + 1), dftPower x j = 0 := by
    apply Finset.sum_eq_zero
    intro j _
    unfold dftPower
    rw [dftRe_zero_of_all_zero x h j, dftIm_zero_of_all_zero x h j]
    ring
  simp only [low_freq_ratio, hden]
  simp

lemma buildCandidate_rms_one (p : Params) (h0 : List ℝ) (hpos : 0 < p.lambda_threshold)
    (hacc : accepted p (buildCandidate h0)) : rmsOf (buildCandidate h0) = 1 := by
  obtain ⟨hlam, -, -, -⟩ := hacc
  unfold buildCandidate at hlam ⊢
  by_cases hs : sumSq (centeredOf (h0 ++ h0.reverse)) = 0
  · exfalso
    have heq : unit_rms (h0 ++ h0.reverse) = centeredOf (h0 ++ h0.reverse) := by
      unfold unit_rms
      rw [if_pos (rmsOf_zero_of_sumSq_zero _ hs)]
    have hall : ∀ a ∈ unit_rms (h0 ++ h0.reverse), a = 0 := by
      rw [heq]
      exact all_zero_of_sumSq_zero _ hs
    have hzero : low_freq_ratio (unit_rms (h0 ++ h0.reverse)) p.band = 0 :=
      lfr_zero_of_all_zero _ _ hall
    rw [hzero] at hlam
    linarith
  · have hr : rmsOf (centeredOf (h0 ++ h0.reverse)) ≠ 0 :=
      fun h => hs (sumSq_zero_of_rms_zero _ h)
    unfold unit_rms
    rw [if_neg hr]
    exact rmsOf_div_rms _ hr

lemma palindromic_of_mirror (H : List ℝ) :
    ((H ++ H.reverse).take ((H ++ H.reverse).length / 2)).reverse
      = (H ++ H.reverse).drop ((H ++ H.reverse).length / 2) := by
  have hlen : (H ++ H.reverse).length / 2 = H.length := by
    rw [List.length_append, List.length_reverse]
    omega
  rw [hlen, List.take_left, List.drop_left]

lemma buildCandidate_mirror (h0 : List ℝ) :
    ∃ H : List ℝ, buildCandidate h0 = H ++ H.reverse := by
  unfold buildCandidate unit_rms
  by_cases hr : rmsOf (centeredOf (h0 ++ h0.reverse)) = 0
  · rw [if_pos hr]
    refine ⟨h0.map (fun a => a - mean (h0 ++ h0.reverse)), ?_⟩
    simp [centeredOf, List.map_append, List.map_reverse]
  · rw [if_neg hr]
    refine ⟨(h0.map (fun a => a - mean (h0 ++ h0.reverse))).map
      (fun a => a / rmsOf (centeredOf (h0 ++ h0.reverse))), ?_⟩
    simp [centeredOf, List.map_append, List.map_reverse, List.map_map]

/-- C3: every accepted candidate of `generate_coherent_soft` — i.e. every
palindromised, normalised half-signal `h` that passes the three gates, for a
positive `lambda_threshold` as in the canonical parameters — has RMS energy
exactly `1`, is exactly palindromic (first half reversed equals the second
half), has `|mean| ≤ mean_abs_max`, low-frequency power ratio
`≥ lambda_threshold`, and a first-half sign-change count within
`[sign_changes_min, sign_changes_max]`. -/
theorem c3_accepted_sequence_properties (p : Params) (h0 : List ℝ)
    (hpos : 0 < p.lambda_threshold) (hacc : accepted p (buildCandidate h0)) :
    rmsOf (buildCandidate h0) = 1 ∧
    ((buildCandidate h0).take ((buildCandidate h0).length / 2)).reverse
      = (buildCandidate h0).drop ((buildCandidate h0).length / 2) ∧
    |mean (buildCandidate h0)| ≤ p.mean_abs_max ∧
    p.lambda_threshold ≤ low_freq_ratio (buildCandidate h0) p.band ∧
    p.sign_changes_min ≤ sign_changes_half (buildCandidate h0) ∧
    sign_changes_half (buildCandidate h0) ≤ p.sign_changes_max := by
  obtain ⟨hlam, hmu, hsc1, hsc2⟩ := hacc
  refine ⟨buildCandidate_rms_one p h0 hpos ⟨hlam, hmu, hsc1, hsc2⟩, ?_, hmu, hlam, hsc1, hsc2⟩
  obtain ⟨H, hH⟩ := buildCandidate_mirror h0
  rw [hH]
  exact palindromic_of_mirror H

lemma w_dftRe_zero : dftRe [1, -1, -1, 1] 0 = 0 := by
  unfold dftRe
  simp only [List.length_cons, List.length_nil]
  rw [Finset.sum_range_succ, Finset.sum_range_succ, Finset.sum_range_succ, Finset.sum_range_succ,
    Finset.sum_range_zero]
  norm_num

lemma w_dftIm_zero : dftIm [1, -1, -1, 1] 0 = 0 := by
  unfold dftIm
  simp only [List.length_cons, List.length_nil]
  rw [Finset.sum_range_succ, Finset.sum_range_succ, Finset.sum_range_succ, Finset.sum_range_succ,
    Finset.sum_range_zero]
  norm_num

lemma w_dftRe_one : dftRe [1, -1, -1, 1] 1 = 2 := by
  unfold dftRe
  simp only [List.length_cons, List.length_nil]
  rw [Finset.sum_range_succ, Finset.sum_range_succ, Finset.sum_range_succ, Finset.sum_range_succ,
    Finset.sum_range_zero]
  push_cast
  rw [show (2 * Real.pi * 1 * 1 / 4 : ℝ) = Real.pi / 2 by ring]
  rw [show (2 * Real.pi * 1 * 2 / 4 : ℝ) = Real.pi by ring]
  rw [show (2 * Real.pi * 1 * 3 / 4 : ℝ) = Real.pi + Real.pi / 2 by ring]
  rw [Real.cos_pi_div_two, Real.cos_pi, Real.cos_add, Real.sin_pi, Real.cos_pi_div_two,
    Real.sin_pi_div_two]
  norm_num

lemma w_dftIm_one : dftIm [1, -1, -1, 1] 1 = 2 := by
  unfold dftIm
  simp only [List.length_cons, List.length_nil]
  rw [Finset.sum_range_succ, Finset.sum_range_succ, Finset.sum_range_succ, Finset.sum_range_succ,
    Finset.sum_range_zero]
  push_cast
  rw [show (2 * Real.pi * 1 * 1 / 4 : ℝ) = Real.pi / 2 by ring]
  rw [show (2 * Real.pi * 1 * 2 / 4 : ℝ) = Real.pi by ring]
  rw [show (2 * Real.pi * 1 * 3 / 4 : ℝ) = Real.pi + Real.pi / 2 by ring]
  rw [Real.sin_pi_div_two, Real.sin_pi, Real.sin_add, Real.cos_pi, Real.cos_pi_div_two,
    Real.sin_pi_div_two, Real.sin_pi]
  norm_num

lemma w_dftRe_two : dftRe [1, -1, -1, 1] 2 = 0 := by
  unfold dftRe
  simp only [List.length_cons, List.length_nil]
  rw [Finset.sum_range_succ, Finset.sum_range_succ, Finset.sum_range_succ, Finset.sum_range_succ,
    Finset.sum_range_zero]
  push_cast
  rw [show (2 * Real.pi * 2 * 1 / 4 : ℝ) = Real.pi by ring]
  rw [show (2 * Real.pi * 2 * 2 / 4 : ℝ) = Real.pi + Real.pi by ring]
  rw [show (2 * Real.pi * 2 * 3 / 4 : ℝ) = Real.pi + (Real.pi + Real.pi) by ring]
  rw [Real.cos_pi, Real.cos_add, Real.cos_add, Real.cos_pi, Real.sin_pi]
  norm_num

lemma w_dftIm_two : dftIm [1, -1, -1, 1] 2 = 0 := by
  unfold dftIm
  simp only [List.length_cons, List.length_nil]
  rw [Finset.sum_range_succ, Finset.sum_range_succ, Finset.sum_range_succ, Finset.sum_range_succ,
    Finset.sum_range_zero]
  push_cast
  rw [show (2 * Real.pi * 2 * 1 / 4 : ℝ) = Real.pi by ring]
  rw [show (2 * Real.pi * 2 * 2 / 4 : ℝ) = Real.pi + Real.pi by ring]
  rw [show (2 * Real.pi * 2 * 3 / 4 : ℝ) = Real.pi + (Real.pi + Real.pi) by ring]
  rw [Real.sin_pi, Real.sin_add, Real.sin_add, Real.sin_pi, Real.cos_pi]
  norm_num

lemma w_lfr : low_freq_ratio [1, -1, -1, 1] 1 = 1 := by
  unfold low_freq_ratio
  simp only [List.length_cons, List.length_nil]
  have hfil : (Finset.range (4 / 2 + 1)).filter
      (fun (j : ℕ) => (j : ℝ) / ((4 : ℕ) : ℝ) ≤ (1 : ℝ)) = Finset.range (4 / 2 + 1) := by
    apply Finset.filter_true_of_mem
    intro j hj
    rw [Finset.mem_range] at hj
    rw [div_le_one (by norm_num)]
    exact_mod_cast (by omega : j ≤ 4)
  rw [hfil]
  have hsum : ∑ j ∈ Finset.range (4 / 2 + 1), dftPower [1, -1, -1, 1] j = 8 := by
    rw [show (4 / 2 + 1) = 3 by norm_num]
    rw [Finset.sum_range_succ, Finset.sum_range_succ, Finset.sum_range_succ,
      Finset.sum_range_zero]
    unfold dftPower
    rw [w_dftRe_zero, w_dftIm_zero, w_dftRe_one, w_dftIm_one, w_dftRe_two, w_dftIm_two]
    norm_num
  rw [hsum]
  norm_num

lemma w_build : buildCandidate [1, -1] = [1, -1, -1, 1] := by
  have hx0 : ([1, -1] : List ℝ) ++ [1, -1].reverse = [1, -1, -1, 1] := by
    norm_num
  have hmean : mean [1, -1, -1, 1] = 0 := by norm_num [mean]
  have hcent : centeredOf [1, -1, -1, 1] = [1, -1, -1, 1] := by
    norm_num [centeredOf, hmean]
  have hrms : rmsOf [1, -1, -1, 1] = 1 := by norm_num [rmsOf, sumSq]
  unfold buildCandidate unit_rms
  rw [hx0, hcent, hrms]
  norm_num

/-- Witness for C3 at the concrete half-signal `[1, -1]` under `wParams`:
the built candidate `[1, -1, -1, 1]` passes all three gates. -/
theorem c3_accepted_sequence_properties_witness :
    0 < wParams.lambda_threshold ∧ accepted wParams (buildCandidate [1, -1]) ∧
    rmsOf (buildCandidate [1, -1]) = 1 ∧
    ((buildCandidate [1, -1]).take ((buildCandidate [1, -1]).length / 2)).reverse
      = (buildCandidate [1, -1]).drop ((buildCandidate [1, -1]).length / 2) := by
  have hpos : 0 < wParams.lambda_threshold := by norm_num [wParams]
  have hsc : sign_changes_half [1, -1, -1, 1] = 1 := by
    unfold sign_changes_half
    simp only [List.length_cons, List.length_nil]
    norm_num [List.take, sgnPM]
  have hmean : mean [1, -1, -1, 1] = 0 := by norm_num [mean]
  have hacc : accepted wParams (buildCandidate [1, -1]) := by
    rw [w_build]
    refine ⟨?_, ?_, ?_, ?_⟩
    · rw [show wParams.band = 1 from rfl, w_lfr]
      norm_num [wParams]
    · rw [hmean]
      norm_num [wParams]
    · rw [hsc]
      norm_num [wParams]
    · rw [hsc]
      norm_num [wParams]
  have hthm := c3_accepted_sequence_properties wParams [1, -1] hpos hacc
  exact ⟨hpos, hacc, hthm.1, hthm.2.1⟩

/-- C4: the rejection-sampling loop of `generate_coherent_soft` has no
maximum-attempt bound: a rejected candidate is discarded and the loop
recurses on a fresh draw (the step equations), and whenever the parameters
are such that no drawn candidate is ever accepted, the loop never returns for
any amount of fuel — the generator is not a total function without an
acceptance hypothesis. -/
theorem c4_rejection_loop_unbounded (p : Params) :
    (∀ (draws : ℕ → List ℝ) (fuel : ℕ),
      (accepted p (candidateOfDraw p (draws 0)) →
        generateFuel p draws (fuel + 1) =
          some (candidateOfDraw p (draws 0),
            low_freq_ratio (candidateOfDraw p (draws 0)) p.band,
            mean (candidateOfDraw p (draws 0)),
            sign_changes_half (candidateOfDraw p (draws 0)))) ∧
      (¬ accepted p (candidateOfDraw p (draws 0)) →
        generateFuel p draws (fuel + 1) = generateFuel p (fun i => draws (i + 1)) fuel)) ∧
    ((∀ d : List ℝ, ¬ accepted p (candidateOfDraw p d)) →
      ∀ (draws : ℕ → List ℝ) (fuel : ℕ), generateFuel p draws fuel = none) := by
  constructor
  · intro draws fuel
    constructor
    · intro hacc
      simp only [generateFuel]
      rw [if_pos hacc]
    · intro hrej
      simp only [generateFuel]
      rw [if_neg hrej]
  · intro hnone draws fuel
    induction fuel generalizing draws with
    | zero => rfl
    | succ n ih =>
      simp only [generateFuel]
      rw [if_neg (hnone (draws 0))]
      exact ih _

/-- Witness for C4: under `wBadParams` (sign-change gate unsatisfiable) no
candidate is ever accepted and the loop returns nothing even with 100 units
of fuel. -/
theorem c4_rejection_loop_unbounded_witness :
    (∀ d : List ℝ, ¬ accepted wBadParams (candidateOfDraw wBadParams d)) ∧
    generateFuel wBadParams (fun _ => []) 100 = none := by
  have hno : ∀ d : List ℝ, ¬ accepted wBadParams (candidateOfDraw wBadParams d) := by
    rintro d ⟨-, -, hsc1, hsc2⟩
    have h5 : 5 ≤ sign_changes_half (candidateOfDraw wBadParams d) := hsc1
    have h2 : sign_changes_half (candidateOfDraw wBadParams d) ≤ 2 := hsc2
    omega
  exact ⟨hno, (c4_rejection_loop_unbounded wBadParams).2 hno (fun _ => []) 100⟩

end Sig

namespace Sig

lemma sumSq_eq_finset (x : List ℝ) :
    sumSq x = ∑ i ∈ Finset.range x.length, (x.getD i 0) ^ 2 := by
  induction x with
  | nil => simp [sumSq]
  | cons a t ih =>
    rw [sumSq_cons, ih, List.length_cons, Finset.sum_range_succ']
    simp only [List.getD_cons_succ, List.getD_cons_zero]
    ring

lemma zipWith_mul_sum (x y : List ℝ) (h : x.length = y.length) :
    (List.zipWith (· * ·) x y).sum = ∑ i ∈ Finset.range x.length, x.getD i 0 * y.getD i 0 := by
  induction x generalizing y with
  | nil => simp
  | cons a t ih =>
    cases y with
    | nil => simp at h
    | cons b s =>
      have hts : t.length = s.length := by simpa using h
      rw [List.zipWith_cons_cons, List.sum_cons, ih s hts, List.length_cons,
        Finset.sum_range_succ']
      simp only [List.getD_cons_succ, List.getD_cons_zero]
      ring

lemma rmsOf_nonneg (x : List ℝ) : 0 ≤ rmsOf x := Real.sqrt_nonneg _

lemma corr_abs_le_rms (x y : List ℝ) (h : x.length = y.length) :
    |corr_mean x y| ≤ rmsOf x * rmsOf y := by
  by_cases hx : x.length = 0
  · have hc : corr_mean x y = 0 := by simp [corr_mean, hx]
    rw [hc, abs_zero]
    exact mul_nonneg (rmsOf_nonneg x) (rmsOf_nonneg y)
  · have hn : (0 : ℝ) < (x.length : ℝ) := by exact_mod_cast Nat.pos_of_ne_zero hx
    have hcs : (∑ i ∈ Finset.range x.length, x.getD i 0 * y.getD i 0) ^ 2
        ≤ (∑ i ∈ Finset.range x.length, (x.getD i 0) ^ 2)
          * (∑ i ∈ Finset.range x.length, (y.getD i 0) ^ 2) :=
      Finset.sum_mul_sq_le_sq_mul_sq _ _ _
    rw [← zipWith_mul_sum x y h, ← sumSq_eq_finset x, h, ← sumSq_eq_finset y] at hcs
    have habs : |(List.zipWith (· * ·) x y).sum| ≤ Real.sqrt (sumSq x * sumSq y) :=
      Real.abs_le_sqrt hcs
    have hprod : rmsOf x * rmsOf y = Real.sqrt (sumSq x * sumSq y) / (x.length : ℝ) := by
      unfold rmsOf
      rw [h, ← Real.sqrt_mul (div_nonneg (sumSq_nonneg x) (Nat.cast_nonneg _)), ← h]
      rw [div_mul_div_comm,
        Real.sqrt_div (mul_nonneg (sumSq_nonneg x) (sumSq_nonneg y)),
        Real.sqrt_mul_self (le_of_lt hn)]
    have hcorr : |corr_mean x y| = |(List.zipWith (· * ·) x y).sum| / (x.length : ℝ) := by
      unfold corr_mean
      rw [abs_div, abs_of_pos hn]
    rw [hcorr, hprod]
    exact (div_le_div_iff_of_pos_right hn).mpr habs

lemma corr_bounds (x y : List ℝ) (h : x.length = y.length)
    (hx : rmsOf x ≤ 1) (hy : rmsOf y ≤ 1) :
    -1 ≤ corr_mean x y ∧ corr_mean x y ≤ 1 ∧
    0 ≤ energyOf (corr_mean x y) ∧ energyOf (corr_mean x y) ≤ 4 := by
  have habs := corr_abs_le_rms x y h
  have h1 : |corr_mean x y| ≤ 1 := by
    refine le_trans habs ?_
    nlinarith [rmsOf_nonneg x, rmsOf_nonneg y]
  obtain ⟨hlo, hhi⟩ := abs_le.mp h1
  exact ⟨hlo, hhi, by unfold energyOf; linarith, by unfold energyOf; linarith⟩

lemma length_rotl (k : ℕ) (x : List ℝ) : (rotl k x).length = x.length := by
  unfold rotl
  rw [List.length_append, List.length_drop, List.length_take]
  rcases Nat.eq_zero_or_pos x.length with h0 | hpos
  · simp [h0]
  · have := Nat.mod_lt k hpos
    omega

lemma sumSq_append (a b : List ℝ) : sumSq (a ++ b) = sumSq a + sumSq b := by
  unfold sumSq
  rw [List.map_append, List.sum_append]

lemma sumSq_rotl (k : ℕ) (x : List ℝ) : sumSq (rotl k x) = sumSq x := by
  unfold rotl
  rw [sumSq_append, add_comm, ← sumSq_append, List.take_append_drop]

lemma rmsOf_rotl (k : ℕ) (x : List ℝ) : rmsOf (rotl k x) = rmsOf x := by
  unfold rmsOf
  rw [sumSq_rotl, length_rotl]

lemma mem_of_mem_rotl {a : ℝ} {k : ℕ} {x : List ℝ} (h : a ∈ rotl k x) : a ∈ x := by
  unfold rotl at h
  rcases List.mem_append.mp h with h' | h'
  · exact List.mem_of_mem_drop h'
  · exact List.mem_of_mem_take h'

lemma pm_sumSq (v : List ℝ) (h : ∀ a ∈ v, a = 1 ∨ a = -1) : sumSq v = v.length := by
  induction v with
  | nil => simp [sumSq]
  | cons a t ih =>
    rw [sumSq_cons, ih (fun b hb => h b (List.mem_cons_of_mem _ hb))]
    rcases h a (List.mem_cons_self a t) with rfl | rfl <;>
      · rw [List.length_cons]
        push_cast
        ring

lemma pm_rms_le_one (v : List ℝ) (h : ∀ a ∈ v, a = 1 ∨ a = -1) : rmsOf v ≤ 1 := by
  unfold rmsOf
  rw [pm_sumSq v h]
  rcases Nat.eq_zero_or_pos v.length with h0 | hpos
  · rw [h0]
    norm_num
  · have hn : ((v.length : ℝ)) ≠ 0 := by
      exact_mod_cast Nat.pos_iff_ne_zero.mp hpos
    rw [div_self hn, Real.sqrt_one]

lemma rmsOf_unit_rms_le_one (z : List ℝ) : rmsOf (unit_rms z) ≤ 1 := by
  by_cases h : rmsOf (centeredOf z) = 0
  · unfold unit_rms
    rw [if_pos h, h]
    norm_num
  · unfold unit_rms
    rw [if_neg h, rmsOf_div_rms _ h]

lemma length_unit_rms (z : List ℝ) : (unit_rms z).length = z.length := by
  unfold unit_rms centeredOf
  by_cases h : rmsOf (z.map (fun a => a - mean z)) = 0
  · rw [if_pos h, List.length_map]
  · rw [if_neg h, List.length_map, List.length_map]

lemma to_bin_pm (x : List ℝ) : ∀ a ∈ to_bin x, a = 1 ∨ a = -1 := by
  intro a ha
  obtain ⟨b, -, rfl⟩ := List.mem_map.mp ha
  by_cases h : (0 : ℝ) ≤ b
  · left; rw [if_pos h]
  · right; rw [if_neg h]

lemma length_to_bin (x : List ℝ) : (to_bin x).length = x.length := by
  unfold to_bin
  rw [List.length_map]

lemma applyFlips_pm (mask : List Bool) (v : List ℝ) (h : ∀ a ∈ v, a = 1 ∨ a = -1) :
    ∀ a ∈ applyFlips mask v, a = 1 ∨ a = -1 := by
  induction mask generalizing v with
  | nil => simp [applyFlips]
  | cons b bs ih =>
    cases v with
    | nil => simp [applyFlips]
    | cons c cs =>
      intro a ha
      unfold applyFlips at ha
      rw [List.zipWith_cons_cons] at ha
      rcases List.mem_cons.mp ha with rfl | htail
      · rcases h c (List.mem_cons_self c cs) with rfl | rfl <;> cases b <;> simp
      · exact ih cs (fun a' ha' => h a' (List.mem_cons_of_mem _ ha')) a htail

lemma length_applyFlips (mask : List Bool) (v : List ℝ) :
    (applyFlips mask v).length = min mask.length v.length := by
  unfold applyFlips
  rw [List.length_zipWith]

lemma palinBin_pm (half : List ℝ) (h : ∀ a ∈ half, a = 1 ∨ a = -1) :
    ∀ a ∈ palinBin half, a = 1 ∨ a = -1 := by
  intro a ha
  unfold palinBin at ha
  rcases List.mem_append.mp ha with h' | h'
  · exact h a h'
  · exact h a (List.mem_reverse.mp h')

end Sig

namespace Sig

/-- C10: for every condition family built in `main` — the clean real curve,
the additive-noise curve (re-normalised after noising), the clean binary
curve, the bit-flip curve, and the two negative controls — and for every
rotation step `k`, the correlation `C = mean(x_ref * x_other)` lies in
`[-1, 1]` and hence `E = 2 - 2C` lies in `[0, 4]`, because each correlated
pair consists of sequences of RMS at most one (the accepted base sequence has
RMS `1`, rotation preserves RMS, `unit_rms` outputs have RMS `0` or `1`) or
of sequences with entries in `{-1, +1}`. -/
theorem c10_correlation_energy_bounds (x xrand half w : List ℝ) (mask : List Bool) (k : ℕ)
    (hx : rmsOf x = 1)
    (hrand : ∀ a ∈ xrand, a = 1 ∨ a = -1)
    (hhalf : ∀ a ∈ half, a = 1 ∨ a = -1)
    (hw : w.length = x.length)
    (hmask : mask.length = x.length) :
    (-1 ≤ corr_mean x (rotl k x) ∧ corr_mean x (rotl k x) ≤ 1 ∧
      0 ≤ energyOf (corr_mean x (rotl k x)) ∧ energyOf (corr_mean x (rotl k x)) ≤ 4) ∧
    (-1 ≤ corr_mean x (unit_rms (List.zipWith (· + ·) (rotl k x) w)) ∧
      corr_mean x (unit_rms (List.zipWith (· + ·) (rotl k x) w)) ≤ 1 ∧
      0 ≤ energyOf (corr_mean x (unit_rms (List.zipWith (· + ·) (rotl k x) w))) ∧
      energyOf (corr_mean x (unit_rms (List.zipWith (· + ·) (rotl k x) w))) ≤ 4) ∧
    (-1 ≤ corr_mean (to_bin x) (rotl k (to_bin x)) ∧
      corr_mean (to_bin x) (rotl k (to_bin x)) ≤ 1 ∧
      0 ≤ energyOf (corr_mean (to_bin x) (rotl k (to_bin x))) ∧
      energyOf (corr_mean (to_bin x) (rotl k (to_bin x))) ≤ 4) ∧
    (-1 ≤ corr_mean (to_bin x) (applyFlips mask (rotl k (to_bin x))) ∧
      corr_mean (to_bin x) (applyFlips mask (rotl k (to_bin x))) ≤ 1 ∧
      0 ≤ energyOf (corr_mean (to_bin x) (applyFlips mask (rotl k (to_bin x)))) ∧
      energyOf (corr_mean (to_bin x) (applyFlips mask (rotl k (to_bin x)))) ≤ 4) ∧
    (-1 ≤ corr_mean xrand (rotl k xrand) ∧ corr_mean xrand (rotl k xrand) ≤ 1 ∧
      0 ≤ energyOf (corr_mean xrand (rotl k xrand)) ∧
      energyOf (corr_mean xrand (rotl k xrand)) ≤ 4) ∧
    (-1 ≤ corr_mean (palinBin half) (rotl k (palinBin half)) ∧
      corr_mean (palinBin half) (rotl k (palinBin half)) ≤ 1 ∧
      0 ≤ energyOf (corr_mean (palinBin half) (rotl k (palinBin half))) ∧
      energyOf (corr_mean (palinBin half) (rotl k (palinBin half))) ≤ 4) := by
  have hx1 : rmsOf x ≤ 1 := le_of_eq hx
  have hxrot : rmsOf (rotl k x) ≤ 1 := by rw [rmsOf_rotl]; exact hx1
  have hbin : rmsOf (to_bin x) ≤ 1 := pm_rms_le_one _ (to_bin_pm x)
  have hbinrot : rmsOf (rotl k (to_bin x)) ≤ 1 := by rw [rmsOf_rotl]; exact hbin
  have hflip_pm : ∀ a ∈ applyFlips mask (rotl k (to_bin x)), a = 1 ∨ a = -1 :=
    applyFlips_pm _ _ (fun a ha => to_bin_pm x a (mem_of_mem_rotl ha))
  have hflip : rmsOf (applyFlips mask (rotl k (to_bin x))) ≤ 1 := pm_rms_le_one _ hflip_pm
  have hrand1 : rmsOf xrand ≤ 1 := pm_rms_le_one _ hrand
  have hrandrot : rmsOf (rotl k xrand) ≤ 1 := by rw [rmsOf_rotl]; exact hrand1
  have hpal_pm := palinBin_pm half hhalf
  have hpal : rmsOf (palinBin half) ≤ 1 := pm_rms_le_one _ hpal_pm
  have hpalrot : rmsOf (rotl k (palinBin half)) ≤ 1 := by rw [rmsOf_rotl]; exact hpal
  have hnoisy : rmsOf (unit_rms (List.zipWith (· + ·) (rotl k x) w)) ≤ 1 :=
    rmsOf_unit_rms_le_one _
  have hlen_noisy : x.length = (unit_rms (List.zipWith (· + ·) (rotl k x) w)).length := by
    rw [length_unit_rms, List.length_zipWith, length_rotl, hw]
    omega
  have hlen_flip : (to_bin x).length = (applyFlips mask (rotl k (to_bin x))).length := by
    rw [length_applyFlips, length_rotl, length_to_bin, hmask]
    omega
  refine ⟨corr_bounds _ _ (length_rotl k x).symm hx1 hxrot,
    corr_bounds _ _ hlen_noisy hx1 hnoisy,
    corr_bounds _ _ (length_rotl k (to_bin x)).symm hbin hbinrot,
    corr_bounds _ _ hlen_flip hbin hflip,
    corr_bounds _ _ (length_rotl k xrand).symm hrand1 hrandrot,
    corr_bounds _ _ (length_rotl k (palinBin half)).symm hpal hpalrot⟩

/-- Witness for C10 at a concrete base sequence `[1, -1]`, rotation `k = 1`,
zero noise, no flips, and concrete `±1` controls. -/
theorem c10_correlation_energy_bounds_witness :
    rmsOf [1, -1] = 1 ∧
    (∀ a ∈ ([1, 1] : List ℝ), a = 1 ∨ a = -1) ∧
    (-1 ≤ corr_mean [1, -1] (rotl 1 [1, -1]) ∧ corr_mean [1, -1] (rotl 1 [1, -1]) ≤ 1 ∧
      0 ≤ energyOf (corr_mean [1, -1] (rotl 1 [1, -1])) ∧
      energyOf (corr_mean [1, -1] (rotl 1 [1, -1])) ≤ 4) ∧
    (-1 ≤ corr_mean [1, 1] (rotl 1 [1, 1]) ∧ corr_mean [1, 1] (rotl 1 [1, 1]) ≤ 1) := by
  have hx : rmsOf [1, -1] = 1 := by norm_num [rmsOf, sumSq]
  have hrand : ∀ a ∈ ([1, 1] : List ℝ), a = 1 ∨ a = -1 := by
    intro a ha
    rcases List.mem_cons.mp ha with rfl | ha'
    · exact Or.inl rfl
    · rcases List.mem_cons.mp ha' with rfl | h'
      · exact Or.inl rfl
      · simp at h'
  have hhalf : ∀ a ∈ ([1] : List ℝ), a = 1 ∨ a = -1 := by
    intro a ha
    rcases List.mem_cons.mp ha with rfl | h'
    · exact Or.inl rfl
    · simp at h'
  have hw : ([0, 0] : List ℝ).length = ([1, -1] : List ℝ).length := by simp
  have hmask : ([false, false] : List Bool).length = ([1, -1] : List ℝ).length := by simp
  have hthm := c10_correlation_energy_bounds [1, -1] [1, 1] [1] [0, 0] [false, false] 1
    hx hrand hhalf hw hmask
  exact ⟨hx, hrand, hthm.1, hthm.2.2.2.2.1.1, hthm.2.2.2.2.1.2.1⟩

end Sig

namespace Checker

/-- C9 counterexample: on a directory whose `verdict_details.json` carries the
status token `DONE`, the checker prints the fourth form
`OFFICIAL_REPLICATION (status=DONE)`, which is none of the three claimed
tokens. -/
theorem c9_fourth_output_counterexample :
    checkMain wOddInput = ("OFFICIAL_REPLICATION (status=DONE)", 0) ∧
    "OFFICIAL_REPLICATION (status=DONE)" ≠ "OFFICIAL_REPLICATION_PASS" ∧
    "OFFICIAL_REPLICATION (status=DONE)" ≠ "OFFICIAL_REPLICATION_FAIL" ∧
    ¬ ("NOT_COMPARABLE".data <+: "OFFICIAL_REPLICATION (status=DONE)".data) := by
  refine ⟨by decide, by decide, by decide, by decide⟩

/-- C9 amended: for every input directory the checker prints
`OFFICIAL_REPLICATION_PASS`, `OFFICIAL_REPLICATION_FAIL`, a
`NOT_COMPARABLE`-prefixed line with a reason, or — when a status field is
present but its uppercased form contains neither `PASS` nor `FAIL` — the
fallback line `OFFICIAL_REPLICATION (status=...)`; and on a comparable
directory the PASS/FAIL decision is taken from the verdict token extracted
from the details (with `PASS` substring match taking precedence). -/
theorem c9_checker_output_tokens :
    (∀ inp : CheckerInput,
      (checkMain inp).1 = "OFFICIAL_REPLICATION_PASS" ∨
      (checkMain inp).1 = "OFFICIAL_REPLICATION_FAIL" ∨
      ("NOT_COMPARABLE".data <+: (checkMain inp).1.data) ∨
      ("OFFICIAL_REPLICATION (status=".data <+: (checkMain inp).1.data)) ∧
    (∀ (inp : CheckerInput) (v : List (String × String)) (status : String),
      inp.dirExists = true →
      REQUIRED.filter (fun r => !(inp.filesPresent.contains r)) = [] →
      inp.verdictParse = some v →
      statusOf v = some status →
      EXPECTED_CONDITIONS.find? (fun c => !(hasSub c inp.csvText)) = none →
      (hasSub "PASS" (strUpper status) = true →
        checkMain inp = ("OFFICIAL_REPLICATION_PASS", 0)) ∧
      (hasSub "PASS" (strUpper status) = false → hasSub "FAIL" (strUpper status) = true →
        checkMain inp = ("OFFICIAL_REPLICATION_FAIL", 0)) ∧
      (hasSub "PASS" (strUpper status) = false → hasSub "FAIL" (strUpper status) = false →
        checkMain inp = ("OFFICIAL_REPLICATION (status=" ++ status ++ ")", 0))) := by
  constructor
  · intro inp
    unfold checkMain
    split
    · exact Or.inr (Or.inr (Or.inl (by decide)))
    · split
      · exact Or.inr (Or.inr (Or.inl (by decide)))
      · split
        · exact Or.inr (Or.inr (Or.inl (by decide)))
        · split
          · exact Or.inr (Or.inr (Or.inl (by decide)))
          · split
            · refine Or.inr (Or.inr (Or.inl ?_))
              rw [String.data_append]
              exact List.IsPrefix.trans (by decide) (List.prefix_append _ _)
            · split
              · exact Or.inl rfl
              · split
                · exact Or.inr (Or.inl rfl)
                · refine Or.inr (Or.inr (Or.inr ?_))
                  rw [String.data_append, String.data_append]
                  exact List.IsPrefix.trans (List.prefix_append _ _)
                    (List.prefix_append _ _)
  · intro inp v status h1 h2 h3 h4 h5
    unfold checkMain
    simp only [h1, h2, h3, h4, h5, reduceIte, Bool.true_eq_false, ne_eq,
      not_true_eq_false, not_false_eq_true, if_false, if_true]
    refine ⟨?_, ?_, ?_⟩
    · intro hp
      rw [if_pos hp]
    · intro hp hf
      rw [if_neg (by rw [hp]; simp), if_pos hf]
    · intro hp hf
      rw [if_neg (by rw [hp]; simp), if_neg (by rw [hf]; simp)]

/-- Witness for C9's amended statement: the fallback line on `wOddInput`, and
the PASS token decision on `wPassInput`. -/
theorem c9_checker_output_tokens_witness :
    ((checkMain wOddInput).1 = "OFFICIAL_REPLICATION_PASS" ∨
      (checkMain wOddInput).1 = "OFFICIAL_REPLICATION_FAIL" ∨
      ("NOT_COMPARABLE".data <+: (checkMain wOddInput).1.data) ∨
      ("OFFICIAL_REPLICATION (status=".data <+: (checkMain wOddInput).1.data)) ∧
    statusOf [("verdict", "PASS")] = some "PASS" ∧
    hasSub "PASS" (strUpper "PASS") = true ∧
    checkMain wPassInput = ("OFFICIAL_REPLICATION_PASS", 0) := by
  refine ⟨c9_checker_output_tokens.1 wOddInput, by decide, by decide, ?_⟩
  exact ((c9_checker_output_tokens.2 wPassInput [("verdict", "PASS")] "PASS"
    (by decide) (by decide) (by decide) (by decide) (by decide)).1) (by decide)

end Checker
